import Mathlib

/-!
Verification of the Voice-Audit intent-extraction pipeline.

The definitions below are a shallow embedding of the three backend service
files (gemini service, googleTasks service, googleGmail service).  JavaScript
dates are modelled as calendar triples in a single time zone (the server model
is UTC, so local time and UTC coincide); JavaScript date strings are modelled
in the ISO `YYYY-MM-DD` format that the pipeline documents and produces.
-/

/-- A calendar date, the model of a JS `Date` at local midnight (tz = UTC). -/
structure Date where
  year : Nat
  month : Nat
  day : Nat
deriving Repr, DecidableEq

/-- Gregorian leap-year test. -/
def isLeap (y : Nat) : Bool :=
  (y % 4 == 0 && y % 100 != 0) || y % 400 == 0

/-- Days in a month, as used by the JS `Date` calendar. -/
def daysInMonth (y m : Nat) : Nat :=
  if m == 2 then (if isLeap y then 29 else 28)
  else if m == 4 || m == 6 || m == 9 || m == 11 then 30
  else 31

/-- Strict chronological order on dates (model of `parsedDate < today`). -/
def dateBefore (a b : Date) : Bool :=
  decide (a.year < b.year) ||
    (a.year == b.year &&
      (decide (a.month < b.month) ||
        (a.month == b.month && decide (a.day < b.day))))

/-- Model of JS `Date.prototype.setFullYear`: keeps month/day, rolling an
out-of-range day (Feb 29 in a non-leap year) into the next month. -/
def setYearJS (d : Date) (y : Nat) : Date :=
  if d.day ≤ daysInMonth y d.month then ⟨y, d.month, d.day⟩
  else ⟨y, d.month + 1, d.day - daysInMonth y d.month⟩

/-- Digit value of a character. -/
def digitVal (c : Char) : Nat := c.toNat - 48

/-- Model of `new Date(dateStr)` on the documented `YYYY-MM-DD` format: the
string parses exactly when it is four digits, dash, two digits, dash, two
digits denoting a valid calendar date; anything else is an Invalid Date. -/
def parseDateString (s : String) : Option Date :=
  match s.toList with
  | [y1, y2, y3, y4, h1, m1, m2, h2, d1, d2] =>
    if y1.isDigit && y2.isDigit && y3.isDigit && y4.isDigit &&
       h1 == '-' && m1.isDigit && m2.isDigit &&
       h2 == '-' && d1.isDigit && d2.isDigit then
      let y := ((digitVal y1 * 10 + digitVal y2) * 10 + digitVal y3) * 10 + digitVal y4
      let m := digitVal m1 * 10 + digitVal m2
      let d := digitVal d1 * 10 + digitVal d2
      if 1 ≤ m && m ≤ 12 && 1 ≤ d && d ≤ daysInMonth y m then some ⟨y, m, d⟩
      else none
    else none
  | _ => none

/-- Left-pad a numeral with zeros to the given width. -/
def padNum (width n : Nat) : String :=
  let s := toString n
  if s.length < width then String.mk (List.replicate (width - s.length) '0') ++ s
  else s

/-- Model of `toISOString().split("T")[0]`: the `YYYY-MM-DD` rendering. -/
def toISODate (d : Date) : String :=
  padNum 4 d.year ++ "-" ++ padNum 2 d.month ++ "-" ++ padNum 2 d.day

/-- Embedding of `validateAndFixDate` from the gemini service.  `anchor` is
the current date (the source computes `currentYear` and the start of `today`
from `new Date()`).  A falsy input (absent field or empty string) is returned
as is; an unparseable string yields `undefined`; a past year is replaced by
the anchor year, and if the result still precedes the start of today the year
is advanced once more.  The `catch` branch of the source is unreachable in
this model because no step throws. -/
def validateAndFixDate (anchor : Date) (dateStr : Option String) : Option String :=
  match dateStr with
  | none => none
  | some s =>
    if s = "" then some s
    else
      match parseDateString s with
      | none => none
      | some d =>
        if d.year < anchor.year then
          let d1 := setYearJS d anchor.year
          let d2 := if dateBefore d1 anchor then setYearJS d1 (anchor.year + 1) else d1
          some (toISODate d2)
        else some s

lemma setYearJS_year (d : Date) (y : Nat) : (setYearJS d y).year = y := by
  unfold setYearJS
  split <;> rfl

lemma dateBefore_false_of_year_gt {a b : Date} (h : b.year < a.year) :
    dateBefore a b = false := by
  unfold dateBefore
  have h1 : decide (a.year < b.year) = false := by
    simp [Nat.not_lt.mpr (Nat.le_of_lt h)]
  have h2 : (a.year == b.year) = false := by
    simp [Nat.ne_of_gt h]
  rw [h1, h2]
  rfl

/-- C1: a parsed date with a year before the anchor year is resolved to a
`YYYY-MM-DD` date whose year is the anchor year or the anchor year plus one
and which is never before the anchor day; with anchor 2025-06-10 the input
2024-01-05 resolves to 2026-01-05 and 2024-12-25 resolves to 2025-12-25. -/
theorem dateResolver_past_year_rolls_forward :
    (∀ (anchor : Date) (s : String) (d : Date),
      parseDateString s = some d → d.year < anchor.year →
      ∃ d2 : Date, validateAndFixDate anchor (some s) = some (toISODate d2) ∧
        (d2.year = anchor.year ∨ d2.year = anchor.year + 1) ∧
        dateBefore d2 anchor = false) ∧
    validateAndFixDate ⟨2025, 6, 10⟩ (some "2024-01-05") = some "2026-01-05" ∧
    validateAndFixDate ⟨2025, 6, 10⟩ (some "2024-12-25") = some "2025-12-25" := by
  refine ⟨?_, by decide, by decide⟩
  intro anchor s d hp hy
  have hs : s ≠ "" := by
    intro h
    rw [h] at hp
    exact Option.noConfusion ((rfl : parseDateString "" = none) ▸ hp)
  refine ⟨if dateBefore (setYearJS d anchor.year) anchor
            then setYearJS (setYearJS d anchor.year) (anchor.year + 1)
            else setYearJS d anchor.year, ?_, ?_, ?_⟩
  · simp only [validateAndFixDate, hs, if_neg hs, hp, if_pos hy, if_false]
  · by_cases hb : dateBefore (setYearJS d anchor.year) anchor = true
    · rw [if_pos hb, setYearJS_year]
      exact Or.inr rfl
    · rw [if_neg hb, setYearJS_year]
      exact Or.inl rfl
  · by_cases hb : dateBefore (setYearJS d anchor.year) anchor = true
    · rw [if_pos hb]
      apply dateBefore_false_of_year_gt
      rw [setYearJS_year]
      exact Nat.lt_succ_self _
    · rw [if_neg hb]
      exact Bool.not_eq_true _ ▸ (eq_false_of_ne_true hb)

/-- Witness for C1 at anchor 2025-06-10 and input "2024-01-05". -/
theorem dateResolver_past_year_rolls_forward_witness :
    ∃ d2 : Date, validateAndFixDate ⟨2025, 6, 10⟩ (some "2024-01-05") = some (toISODate d2) ∧
      (d2.year = (Date.mk 2025 6 10).year ∨ d2.year = (Date.mk 2025 6 10).year + 1) ∧
      dateBefore d2 ⟨2025, 6, 10⟩ = false :=
  dateResolver_past_year_rolls_forward.1 ⟨2025, 6, 10⟩ "2024-01-05" ⟨2024, 1, 5⟩
    (by decide) (by decide)

/-- C5: a parsed date whose year is at least the anchor year is returned
completely unchanged, even far in the future. -/
theorem dateResolver_future_passthrough (anchor : Date) (s : String) (d : Date)
    (hp : parseDateString s = some d) (hy : anchor.year ≤ d.year) :
    validateAndFixDate anchor (some s) = some s := by
  have hs : s ≠ "" := by
    intro h
    rw [h] at hp
    exact Option.noConfusion ((rfl : parseDateString "" = none) ▸ hp)
  simp only [validateAndFixDate, if_neg hs, hp, if_neg (Nat.not_lt.mpr hy)]

/-- Witness for C5: a date far in the future passes through unchanged. -/
theorem dateResolver_future_passthrough_witness :
    validateAndFixDate ⟨2025, 6, 10⟩ (some "2031-02-14") = some "2031-02-14" :=
  dateResolver_future_passthrough ⟨2025, 6, 10⟩ "2031-02-14" ⟨2031, 2, 14⟩
    (by decide) (by decide)

/-- C9 counterexample: the empty string cannot be parsed as a calendar date,
yet `validateAndFixDate` returns it unchanged (the falsy guard fires before
the parse), not `undefined`. -/
theorem dateResolver_unparseable_counterexample :
    parseDateString "" = none ∧
    validateAndFixDate ⟨2025, 6, 10⟩ (some "") = some "" ∧
    some "" ≠ (none : Option String) := by
  refine ⟨by decide, by decide, by decide⟩

/-- C9 amended: every non-empty string that does not parse as a calendar date
is dropped (`undefined`); the empty string alone is returned as is. -/
theorem dateResolver_unparseable_dropped (anchor : Date) (s : String)
    (hs : s ≠ "") (hp : parseDateString s = none) :
    validateAndFixDate anchor (some s) = none := by
  simp only [validateAndFixDate, if_neg hs, hp]

/-- Witness for C9 amended at a concrete unparseable string. -/
theorem dateResolver_unparseable_dropped_witness :
    validateAndFixDate ⟨2025, 6, 10⟩ (some "not-a-date") = none :=
  dateResolver_unparseable_dropped ⟨2025, 6, 10⟩ "not-a-date" (by decide) (by decide)

/-! ## JS string primitives shared by the services -/

/-- Whitespace as consumed by JS `trim` (the characters that occur in this
pipeline; the full ECMA class also has exotic Unicode spaces). -/
def isWsChar (c : Char) : Bool :=
  c == ' ' || c == '\t' || c == '\n' || c == '\r'

/-- Trim whitespace from both ends of a character list. -/
def trimChars (l : List Char) : List Char :=
  ((l.dropWhile isWsChar).reverse.dropWhile isWsChar).reverse

/-- Model of JS `String.prototype.trim`. -/
def jsTrim (s : String) : String :=
  (trimChars s.toList).asString

/-- Model of JS `String.prototype.toLowerCase` (ASCII lowering). -/
def jsToLower (s : String) : String :=
  (s.toList.map Char.toLower).asString

/-! ## The task collaborator (googleTasks service) -/

/-- The decoded model record (the `GeminiResponse` interface).  Every field is
optional in the source; fields are, in order: action, title, description,
date, time, duration, location, recipient, subject, body, dueDate, priority.
The nested `actions` sequence is handled at the JSON level further below and
is not consumed by the task or email collaborators. -/
structure GeminiResponse where
  action : Option String
  title : Option String
  description : Option String
  date : Option String
  time : Option String
  duration : Option Int
  location : Option String
  recipient : Option String
  subject : Option String
  body : Option String
  dueDate : Option String
  priority : Option String
deriving Repr, DecidableEq

/-- JS truthiness test on an optional string field: `!x` holds exactly when
the field is absent or the empty string. -/
def strFalsy : Option String → Bool
  | none => true
  | some s => s == ""

/-- Day after `d` in the calendar (model of `setDate(getDate() + 1)`). -/
def nextDay (d : Date) : Date :=
  if d.day < daysInMonth d.year d.month then ⟨d.year, d.month, d.day + 1⟩
  else if d.month < 12 then ⟨d.year, d.month + 1, 1⟩
  else ⟨d.year + 1, 1, 1⟩

/-- RFC 3339 rendering of the end of day `d` (model of
`setHours(23, 59, 59, 0)` followed by `toISOString()`, tz = UTC). -/
def endOfDayISO (d : Date) : String :=
  toISODate d ++ "T23:59:59.000Z"

/-- Embedding of `parseDate` from the googleTasks service: "today" and
"tomorrow" (lower-cased, trimmed) resolve to the end of the current and the
next day; otherwise the original string is parsed as a date and anchored to
the end of that day; a string that fails to parse silently becomes the end of
the current day.  `anchor` is the current date (`new Date()`). -/
def parseDate (dateString : String) (anchor : Date) : String :=
  let lowerDate := jsTrim (jsToLower dateString)
  if lowerDate = "today" then endOfDayISO anchor
  else if lowerDate = "tomorrow" then endOfDayISO (nextDay anchor)
  else
    match parseDateString dateString with
    | some d => endOfDayISO d
    | none => endOfDayISO anchor

/-- The request body handed to the Tasks API by `createTask`. -/
structure TaskPayload where
  title : String
  notes : Option String
  due : Option String
  status : String
deriving Repr, DecidableEq

/-- The due field of the task payload: the source expression
`data.dueDate ? parseDate(data.dueDate) : undefined` (an empty string is
falsy and yields `undefined` as well). -/
def taskDue (dueDate : Option String) (anchor : Date) : Option String :=
  match dueDate with
  | none => none
  | some s => if s = "" then none else some (parseDate s anchor)

/-- The notes field of the task payload: the conditional spread
`...(data.description && data.description.trim() && ...)`. -/
def taskNotes (description : Option String) : Option String :=
  match description with
  | none => none
  | some ds => if jsTrim ds = "" then none else some (jsTrim ds)

/-- Embedding of the validation and request-building part of `createTask`.
The authenticated client, the task-list lookup and the insert call are
external collaborators; the embedding covers everything the service computes
before handing the payload to them. -/
def createTask (data : GeminiResponse) (anchor : Date) : Except String TaskPayload :=
  if data.action ≠ some "task" then Except.error "Invalid action type for tasks service"
  else if strFalsy data.title then Except.error "Task title is required"
  else Except.ok ⟨data.title.getD "", taskNotes data.description,
    taskDue data.dueDate anchor, "needsAction"⟩

/-- C4 counterexample: a task with a title and no due date is created with
`due` left undefined, not defaulted to the end of the current day. -/
theorem createTask_absent_dueDate_counterexample :
    createTask ⟨some "task", some "Buy milk", none, none, none, none,
      none, none, none, none, none, none⟩ ⟨2025, 6, 10⟩ =
      Except.ok ⟨"Buy milk", none, none, "needsAction"⟩ ∧
    (none : Option String) ≠ some (endOfDayISO ⟨2025, 6, 10⟩) := by
  exact ⟨rfl, fun h => Option.noConfusion h⟩

/-- C4 amended: `createTask` fails when the title is absent or empty; when
`dueDate` is absent the due field is left unset (no default); when `dueDate`
is the relative term "today" or "tomorrow" (case-insensitive, trimmed) the
collaborator itself resolves it to the end-of-day RFC 3339 timestamp of that
day. -/
theorem createTask_validation_and_relative_dates
    (data : GeminiResponse) (anchor : Date) :
    (strFalsy data.title = true → ∃ e, createTask data anchor = Except.error e) ∧
    (data.dueDate = none → ∀ p, createTask data anchor = Except.ok p → p.due = none) ∧
    (∀ s, data.dueDate = some s →
      (jsTrim (jsToLower s) = "today" → ∀ p, createTask data anchor = Except.ok p →
        p.due = some (endOfDayISO anchor)) ∧
      (jsTrim (jsToLower s) = "tomorrow" → ∀ p, createTask data anchor = Except.ok p →
        p.due = some (endOfDayISO (nextDay anchor)))) := by
  have hdue : ∀ p, createTask data anchor = Except.ok p →
      p.due = taskDue data.dueDate anchor := by
    intro p hp
    unfold createTask at hp
    by_cases ha : data.action ≠ some "task"
    · rw [if_pos ha] at hp
      exact Except.noConfusion hp
    · rw [if_neg ha] at hp
      by_cases ht : strFalsy data.title = true
      · rw [if_pos ht] at hp
        exact Except.noConfusion hp
      · rw [if_neg ht] at hp
        cases hp
        rfl
  refine ⟨?_, ?_, ?_⟩
  · intro ht
    unfold createTask
    by_cases ha : data.action = some "task"
    · rw [if_neg (by simp [ha]), if_pos ht]
      exact ⟨_, rfl⟩
    · rw [if_pos (by simp [ha])]
      exact ⟨_, rfl⟩
  · intro hd p hp
    rw [hdue p hp, hd]
    rfl
  · intro s hds
    have hse : ∀ target : String, jsTrim (jsToLower s) = target → target ≠ "" → s ≠ "" := by
      intro target hlow hne h
      subst h
      apply hne
      rw [← hlow]
      decide
    constructor
    · intro hlow p hp
      rw [hdue p hp, hds]
      show (if s = "" then none else some (parseDate s anchor)) = _
      rw [if_neg (hse "today" hlow (by decide))]
      unfold parseDate
      rw [if_pos hlow]
    · intro hlow p hp
      rw [hdue p hp, hds]
      show (if s = "" then none else some (parseDate s anchor)) = _
      rw [if_neg (hse "tomorrow" hlow (by decide))]
      unfold parseDate
      have hne : jsTrim (jsToLower s) ≠ "today" := by
        rw [hlow]
        decide
      rw [if_neg hne, if_pos hlow]

/-- Witness for C4 amended: missing title fails, absent due date stays unset,
and a literal "today"/"tomorrow" resolves to the matching end of day. -/
theorem createTask_validation_and_relative_dates_witness :
    (∃ e, createTask ⟨some "task", none, none, none, none, none, none,
        none, none, none, none, none⟩ ⟨2025, 6, 10⟩ = Except.error e) ∧
    (∀ p, createTask ⟨some "task", some "Buy milk", none, none, none, none,
        none, none, none, none, none, none⟩ ⟨2025, 6, 10⟩ = Except.ok p →
      p.due = none) ∧
    (∀ p, createTask ⟨some "task", some "Buy milk", none, none, none, none,
        none, none, none, none, some "Tomorrow ", none⟩ ⟨2025, 6, 10⟩ = Except.ok p →
      p.due = some (endOfDayISO (nextDay ⟨2025, 6, 10⟩))) := by
  refine ⟨?_, ?_, ?_⟩
  · exact (createTask_validation_and_relative_dates _ _).1 (by decide)
  · exact (createTask_validation_and_relative_dates _ _).2.1 rfl
  · exact ((createTask_validation_and_relative_dates _ _).2.2 "Tomorrow " rfl).2 (by decide)

/-- C10: the task date parser is total and never drops a supplied due date:
any string that is neither "today" nor "tomorrow" (case-insensitive, trimmed)
and does not parse as a date silently becomes the end of the current day. -/
theorem taskParseDate_unparseable_defaults_to_today (s : String) (anchor : Date)
    (h1 : jsTrim (jsToLower s) ≠ "today") (h2 : jsTrim (jsToLower s) ≠ "tomorrow")
    (hp : parseDateString s = none) :
    parseDate s anchor = endOfDayISO anchor := by
  unfold parseDate
  rw [if_neg h1, if_neg h2, hp]

/-- Witness for C10 at a concrete unparseable due date. -/
theorem taskParseDate_unparseable_defaults_to_today_witness :
    parseDate "someday soon" ⟨2025, 6, 10⟩ = endOfDayISO ⟨2025, 6, 10⟩ :=
  taskParseDate_unparseable_defaults_to_today "someday soon" ⟨2025, 6, 10⟩
    (by decide) (by decide) (by decide)

/-! ## The signature enforcer (googleGmail service) -/

/-- Case-insensitive character comparison, the effect of the `i` regex flag. -/
def ciEq (a b : Char) : Bool := a.toLower == b.toLower

/-- Predicate `matchCI pat text`: `pat` is a case-insensitive prefix of
`text` (the whole pattern must fit). -/
def matchCI : List Char → List Char → Bool
  | [], _ => true
  | _ :: _, [] => false
  | p :: ps, c :: cs => ciEq p c && matchCI ps cs

/-- The alternatives of the sign-off regex in `removeAISignature`. -/
def signPhrases : List (List Char) :=
  ["best regards,".toList, "regards,".toList, "sincerely,".toList,
   "thanks,".toList, "thank you,".toList, "cheers,".toList,
   "warm regards,".toList, "kind regards,".toList]

/-- Some recognized closing phrase matches at the head of `l`. -/
def signAt (l : List Char) : Bool := signPhrases.any (fun p => matchCI p l)

/-- Cut everything from the first (leftmost) position where a closing phrase
matches to the end: the effect of replacing the regex match
`(phrase)[\s\S]*$` by the empty string. -/
def cutSignature : List Char → List Char
  | [] => []
  | c :: cs => if signAt (c :: cs) then [] else c :: cutSignature cs

/-- Embedding of `removeAISignature`: strip from the first closing phrase to
the end (no occurrence leaves the body intact), then trim. -/
def removeAISignature (body : String) : String :=
  (trimChars (cutSignature body.toList)).asString

/-- Embedding of `appendSignature`. -/
def appendSignature (body senderName : String) : String :=
  body ++ "\n\nBest regards,\n" ++ senderName

/-- The strip-then-append discipline applied by `sendEmail` (steps 4 and 5). -/
def enforceSignature (body senderName : String) : String :=
  appendSignature (removeAISignature body) senderName

/-- Index of the first position of `l` at which a closing phrase matches;
stated independently of `cutSignature`, in the words of the specification. -/
def firstSignIdx (l : List Char) : Option Nat :=
  (List.range l.length).find? (fun i => signAt (l.drop i))

/-- The specification reading of the strip step: everything from the first
occurrence of a recognized closing phrase to the end is removed and the
result is trimmed. -/
def specRemoveSignature (body : String) : String :=
  match firstSignIdx body.toList with
  | none => (trimChars body.toList).asString
  | some i => (trimChars (body.toList.take i)).asString

lemma cut_cons_of_pos {c : Char} {cs : List Char} (h : signAt (c :: cs) = true) :
    cutSignature (c :: cs) = [] := by
  unfold cutSignature
  rw [if_pos h]

lemma cut_cons_of_neg {c : Char} {cs : List Char} (h : signAt (c :: cs) = false) :
    cutSignature (c :: cs) = c :: cutSignature cs := by
  simp only [cutSignature]
  rw [if_neg (by simp [h])]

lemma matchCI_extend : ∀ (p l t : List Char), matchCI p l = true →
    matchCI p (l ++ t) = true := by
  intro p
  induction p with
  | nil => intro l t _; rfl
  | cons c ps ih =>
    intro l t h
    cases l with
    | nil => simp [matchCI] at h
    | cons d ls =>
      simp only [matchCI, Bool.and_eq_true] at h
      show matchCI (c :: ps) (d :: (ls ++ t)) = true
      simp only [matchCI, Bool.and_eq_true]
      exact ⟨h.1, ih ls t h.2⟩

lemma matchCI_stop : ∀ (p l t : List Char), (∀ c ∈ p, ciEq c '\n' = false) →
    t.head? = some '\n' → matchCI p l = false → matchCI p (l ++ t) = false := by
  intro p
  induction p with
  | nil => intro l t _ _ h; simp [matchCI] at h
  | cons c ps ih =>
    intro l t hnl ht h
    cases l with
    | nil =>
      cases t with
      | nil => simp at ht
      | cons u us =>
        have hu : u = '\n' := by simpa using ht
        subst hu
        show matchCI (c :: ps) ('\n' :: us) = false
        simp only [matchCI]
        rw [hnl c (List.mem_cons_self c ps)]
        rfl
    | cons d ls =>
      show matchCI (c :: ps) (d :: (ls ++ t)) = false
      simp only [matchCI] at h ⊢
      cases hcd : ciEq c d with
      | false => rfl
      | true =>
        rw [hcd] at h
        simp only [Bool.true_and] at h ⊢
        exact ih ls t (fun x hx => hnl x (List.mem_cons_of_mem c hx)) ht h

lemma matchCI_append_nl (p l t : List Char) (hnl : ∀ c ∈ p, ciEq c '\n' = false)
    (ht : t.head? = some '\n') : matchCI p (l ++ t) = matchCI p l := by
  cases hm : matchCI p l with
  | false => exact matchCI_stop p l t hnl ht hm
  | true => exact matchCI_extend p l t hm

lemma signPhrases_no_newline : ∀ p ∈ signPhrases, ∀ c ∈ p, ciEq c '\n' = false := by
  decide

lemma any_congr_of_mem {l : List (List Char)} {f g : List Char → Bool}
    (h : ∀ p ∈ l, f p = g p) : l.any f = l.any g := by
  induction l with
  | nil => rfl
  | cons a as ih =>
    simp only [List.any_cons]
    rw [h a (List.mem_cons_self a as), ih (fun p hp => h p (List.mem_cons_of_mem a hp))]

lemma signAt_append_nl (l t : List Char) (ht : t.head? = some '\n') :
    signAt (l ++ t) = signAt l := by
  unfold signAt
  exact any_congr_of_mem
    (fun p hp => matchCI_append_nl p l t (signPhrases_no_newline p hp) ht)

lemma signAt_false_of_extend (x t : List Char) (h : signAt (x ++ t) = false) :
    signAt x = false := by
  cases hx : signAt x with
  | false => rfl
  | true =>
    obtain ⟨p, hp, hm⟩ := List.any_eq_true.mp hx
    have hext : signAt (x ++ t) = true :=
      List.any_eq_true.mpr ⟨p, hp, matchCI_extend p x t hm⟩
    rw [h] at hext
    exact Bool.noConfusion hext

/-- No closing phrase matches at any position of `s`. -/
def NoSign (s : List Char) : Prop := ∀ i, signAt (s.drop i) = false

lemma cutSignature_front : ∀ l : List Char, ∃ t, cutSignature l ++ t = l := by
  intro l
  induction l with
  | nil => exact ⟨[], rfl⟩
  | cons c cs ih =>
    by_cases h : signAt (c :: cs) = true
    · exact ⟨c :: cs, by rw [cut_cons_of_pos h]; rfl⟩
    · obtain ⟨t, htt⟩ := ih
      refine ⟨t, ?_⟩
      rw [cut_cons_of_neg (by simpa using h), List.cons_append, htt]

lemma cut_kept : ∀ (l : List Char) (i : Nat), i < (cutSignature l).length →
    signAt (l.drop i) = false := by
  intro l
  induction l with
  | nil => intro i hi; simp [cutSignature] at hi
  | cons c cs ih =>
    intro i hi
    cases hs : signAt (c :: cs) with
    | true => rw [cut_cons_of_pos hs] at hi; simp at hi
    | false =>
      rw [cut_cons_of_neg hs] at hi
      cases i with
      | zero => simpa using hs
      | succ i =>
        simp only [List.length_cons, Nat.succ_lt_succ_iff] at hi
        exact ih i hi

lemma cutSignature_noSign (l : List Char) : NoSign (cutSignature l) := by
  intro i
  by_cases hi : i < (cutSignature l).length
  · obtain ⟨t, ht⟩ := cutSignature_front l
    apply signAt_false_of_extend _ t
    have hdrop : (cutSignature l).drop i ++ t = l.drop i := by
      conv_rhs => rw [← ht]
      rw [List.drop_append_of_le_length (Nat.le_of_lt hi)]
    rw [hdrop]
    exact cut_kept l i hi
  · rw [List.drop_of_length_le (Nat.le_of_not_lt hi)]
    decide

lemma noSign_drop (s : List Char) (k : Nat) (h : NoSign s) : NoSign (s.drop k) := by
  intro i
  rw [List.drop_drop]
  exact h (k + i)

lemma noSign_front (s t s' : List Char) (hpre : s ++ t = s') (h : NoSign s') :
    NoSign s := by
  intro i
  by_cases hi : i ≤ s.length
  · apply signAt_false_of_extend _ t
    have hdrop : s.drop i ++ t = s'.drop i := by
      rw [← hpre, List.drop_append_of_le_length hi]
    rw [hdrop]
    exact h i
  · rw [List.drop_of_length_le (Nat.le_of_lt (Nat.lt_of_not_le hi))]
    decide

lemma dropWhile_eq_drop (q : Char → Bool) : ∀ l : List Char, ∃ k, l.dropWhile q = l.drop k := by
  intro l
  induction l with
  | nil => exact ⟨0, rfl⟩
  | cons c cs ih =>
    by_cases h : q c = true
    · obtain ⟨k, hk⟩ := ih
      exact ⟨k + 1, by rw [List.dropWhile_cons_of_pos h]; exact hk⟩
    · exact ⟨0, by rw [List.dropWhile_cons_of_neg h]; rfl⟩

lemma dropWhile_suffix_exists (q : Char → Bool) :
    ∀ l : List Char, ∃ w, w ++ l.dropWhile q = l := by
  intro l
  induction l with
  | nil => exact ⟨[], rfl⟩
  | cons c cs ih =>
    by_cases h : q c = true
    · obtain ⟨w, hw⟩ := ih
      exact ⟨c :: w, by rw [List.dropWhile_cons_of_pos h, List.cons_append, hw]⟩
    · exact ⟨[], by rw [List.dropWhile_cons_of_neg h]; rfl⟩

lemma rtrim_front (l : List Char) :
    ∃ t, (l.reverse.dropWhile isWsChar).reverse ++ t = l := by
  obtain ⟨w, hw⟩ := dropWhile_suffix_exists isWsChar l.reverse
  refine ⟨w.reverse, ?_⟩
  have h2 := congrArg List.reverse hw
  rw [List.reverse_append, List.reverse_reverse] at h2
  exact h2

lemma noSign_trimChars (s : List Char) (h : NoSign s) : NoSign (trimChars s) := by
  unfold trimChars
  obtain ⟨k, hk⟩ := dropWhile_eq_drop isWsChar s
  rw [hk]
  obtain ⟨t, ht⟩ := rtrim_front (s.drop k)
  exact noSign_front _ t _ ht (noSign_drop s k h)

lemma dropWhile_append_all (w u : List Char) (hw : ∀ c ∈ w, isWsChar c = true) :
    (w ++ u).dropWhile isWsChar = u.dropWhile isWsChar := by
  induction w with
  | nil => rfl
  | cons c cs ih =>
    rw [List.cons_append, List.dropWhile_cons_of_pos (hw c (List.mem_cons_self c cs))]
    exact ih (fun x hx => hw x (List.mem_cons_of_mem c hx))

lemma ltrim_append_of_ne_nil (l t : List Char) (h : l.dropWhile isWsChar ≠ []) :
    (l ++ t).dropWhile isWsChar = l.dropWhile isWsChar ++ t := by
  induction l with
  | nil => exact absurd rfl h
  | cons c cs ih =>
    by_cases hc : isWsChar c = true
    · rw [List.dropWhile_cons_of_pos hc] at h
      rw [List.cons_append, List.dropWhile_cons_of_pos hc, List.dropWhile_cons_of_pos hc]
      exact ih h
    · rw [List.cons_append, List.dropWhile_cons_of_neg hc, List.dropWhile_cons_of_neg hc]
      rfl

lemma trim_append_ws (l w : List Char) (hw : ∀ c ∈ w, isWsChar c = true) :
    trimChars (l ++ w) = trimChars l := by
  unfold trimChars
  by_cases h : l.dropWhile isWsChar = []
  · have hl : ∀ c ∈ l, isWsChar c = true := by
      have := List.dropWhile_eq_nil_iff.mp h
      exact this
    have h2 : (l ++ w).dropWhile isWsChar = [] := by
      apply List.dropWhile_eq_nil_iff.mpr
      intro x hx
      rcases List.mem_append.mp hx with h3 | h3
      · exact hl x h3
      · exact hw x h3
    rw [h, h2]
  · rw [ltrim_append_of_ne_nil l w h, List.reverse_append,
      dropWhile_append_all w.reverse _ (fun c hc => hw c (List.mem_reverse.mp hc))]

lemma dropWhile_head_false (q : Char → Bool) :
    ∀ (l : List Char) (c : Char) (cs : List Char),
      l.dropWhile q = c :: cs → q c = false := by
  intro l
  induction l with
  | nil =>
    intro c cs h
    exact absurd h (by simp)
  | cons a as ih =>
    intro c cs h
    by_cases ha : q a = true
    · rw [List.dropWhile_cons_of_pos ha] at h
      exact ih c cs h
    · rw [List.dropWhile_cons_of_neg ha] at h
      injection h with h1 _
      subst h1
      simpa using ha

lemma trimChars_idem (l : List Char) : trimChars (trimChars l) = trimChars l := by
  unfold trimChars
  cases hd : l.dropWhile isWsChar with
  | nil => rfl
  | cons c cs =>
    have hc : isWsChar c = false := dropWhile_head_false isWsChar l c cs hd
    have hA : ((c :: cs).reverse.dropWhile isWsChar).reverse.dropWhile isWsChar =
        ((c :: cs).reverse.dropWhile isWsChar).reverse := by
      cases hr : ((c :: cs).reverse.dropWhile isWsChar).reverse with
      | nil => rfl
      | cons c' cs' =>
        obtain ⟨t, ht⟩ := rtrim_front (c :: cs)
        rw [hr, List.cons_append] at ht
        injection ht with h1 _
        subst h1
        rw [List.dropWhile_cons_of_neg (by simp [hc])]
    rw [hA, List.reverse_reverse, List.dropWhile_idempotent]

lemma signAt_newline_head (xs : List Char) : signAt ('\n' :: xs) = false := by
  refine List.any_eq_false.mpr ?_
  intro p hp
  fin_cases hp <;>
    · show ¬ _ = true
      intro hm
      rw [show matchCI _ ('\n' :: xs) = false from by
        simp only [matchCI]
        rw [show ciEq _ '\n' = false from by decide]
        rfl] at hm
      exact Bool.noConfusion hm

lemma cutSignature_sigBlock (nm : List Char) :
    cutSignature ("\n\nBest regards,\n".toList ++ nm) = ['\n', '\n'] := by
  have h3 : signAt ('B' :: ("est regards,\n".toList ++ nm)) = true := by
    refine List.any_eq_true.mpr ⟨"best regards,".toList, by decide, ?_⟩
    exact matchCI_extend "best regards,".toList "Best regards,".toList ('\n' :: nm) (by decide)
  have h4 : cutSignature ('B' :: ("est regards,\n".toList ++ nm)) = [] :=
    cut_cons_of_pos h3
  show cutSignature ('\n' :: ('\n' :: ('B' :: ("est regards,\n".toList ++ nm)))) = ['\n', '\n']
  rw [cut_cons_of_neg (signAt_newline_head _), cut_cons_of_neg (signAt_newline_head _), h4]

lemma cutSignature_append_noSign (s t : List Char) (hs : NoSign s)
    (ht : t.head? = some '\n') : cutSignature (s ++ t) = s ++ cutSignature t := by
  induction s with
  | nil => rfl
  | cons c cs ih =>
    have h0 : signAt (c :: cs) = false := hs 0
    have h1 : signAt (c :: (cs ++ t)) = false := by
      have := signAt_append_nl (c :: cs) t ht
      rw [h0] at this
      exact this
    show cutSignature (c :: (cs ++ t)) = c :: (cs ++ cutSignature t)
    rw [cut_cons_of_neg h1]
    exact congrArg (List.cons c) (ih (fun i => hs (i + 1)))

lemma enforce_toList (body name : String) :
    (enforceSignature body name).toList =
      trimChars (cutSignature body.toList) ++ ("\n\nBest regards,\n".toList ++ name.toList) := by
  show (removeAISignature body ++ "\n\nBest regards,\n" ++ name).toList = _
  rw [show ∀ s t : String, (s ++ t).toList = s.toList ++ t.toList from fun _ _ => rfl,
    show ∀ s t : String, (s ++ t).toList = s.toList ++ t.toList from fun _ _ => rfl,
    List.append_assoc]
  rfl

/-- C3: the strip-then-append signature discipline is idempotent. -/
theorem signatureEnforcer_idempotent (body name : String) :
    enforceSignature (enforceSignature body name) name = enforceSignature body name := by
  apply String.ext
  show (enforceSignature (enforceSignature body name) name).toList =
    (enforceSignature body name).toList
  rw [enforce_toList, enforce_toList]
  have hns : NoSign (trimChars (cutSignature body.toList)) :=
    noSign_trimChars _ (cutSignature_noSign _)
  have hhead : ("\n\nBest regards,\n".toList ++ name.toList).head? = some '\n' := rfl
  rw [cutSignature_append_noSign _ _ hns hhead, cutSignature_sigBlock,
    trim_append_ws _ _ (by decide), trimChars_idem]

lemma firstSignIdx_cons (c : Char) (cs : List Char) :
    firstSignIdx (c :: cs) = if signAt (c :: cs) = true then some 0
      else (firstSignIdx cs).map Nat.succ := by
  unfold firstSignIdx
  rw [show (c :: cs).length = cs.length + 1 from rfl, List.range_succ_eq_map]
  by_cases hs : signAt (c :: cs) = true
  · rw [if_pos hs]
    exact List.find?_cons_of_pos _ hs
  · rw [if_neg hs]
    have heq : List.find? (fun i => signAt (List.drop i (c :: cs)))
        (0 :: List.map Nat.succ (List.range cs.length)) =
        List.find? (fun i => signAt (List.drop i (c :: cs)))
          (List.map Nat.succ (List.range cs.length)) :=
      List.find?_cons_of_neg _ hs
    rw [heq, List.find?_map]
    rfl

lemma cut_eq_of_none : ∀ l : List Char, firstSignIdx l = none → cutSignature l = l := by
  intro l
  induction l with
  | nil => intro _; rfl
  | cons c cs ih =>
    intro h
    rw [firstSignIdx_cons] at h
    by_cases hs : signAt (c :: cs) = true
    · rw [if_pos hs] at h
      exact Option.noConfusion h
    · rw [if_neg hs] at h
      have hnone : firstSignIdx cs = none := by
        cases hf : firstSignIdx cs with
        | none => rfl
        | some j => rw [hf] at h; exact Option.noConfusion h
      rw [cut_cons_of_neg (by simpa using hs), ih hnone]

lemma cut_eq_of_some : ∀ (l : List Char) (i : Nat), firstSignIdx l = some i →
    cutSignature l = l.take i := by
  intro l
  induction l with
  | nil => intro i h; exact Option.noConfusion h
  | cons c cs ih =>
    intro i h
    rw [firstSignIdx_cons] at h
    by_cases hs : signAt (c :: cs) = true
    · rw [if_pos hs] at h
      injection h with h1
      subst h1
      rw [cut_cons_of_pos hs]
      rfl
    · rw [if_neg hs] at h
      cases hf : firstSignIdx cs with
      | none => rw [hf] at h; exact Option.noConfusion h
      | some j =>
        rw [hf] at h
        injection h with h1
        subst h1
        rw [cut_cons_of_neg (by simpa using hs), ih j hf]
        rfl

lemma specRemove_eq_removeAI (body : String) :
    specRemoveSignature body = removeAISignature body := by
  unfold specRemoveSignature removeAISignature
  cases hf : firstSignIdx body.toList with
  | none => rw [cut_eq_of_none _ hf]
  | some i => rw [cut_eq_of_some _ i hf]

/-- C2: the enforcer output is the body with everything from the first
case-insensitive occurrence of a recognized closing phrase to the end
removed and the result trimmed, followed by two newlines, the line
`Best regards,` and the sender name; the worked example replaces the
model-invented name `AI Assistant` at the end of the body by the real
sender name `Priya Shah`, keeping the rest of the body intact. -/
theorem signatureEnforcer_canonical_block :
    (∀ body name : String, enforceSignature body name =
      specRemoveSignature body ++ "\n\nBest regards,\n" ++ name) ∧
    enforceSignature ("Let" ++ String.singleton (Char.ofNat 39) ++
        "s sync next week.\n\nBest regards,\nAI Assistant") "Priya Shah" =
      "Let" ++ String.singleton (Char.ofNat 39) ++
        "s sync next week.\n\nBest regards,\nPriya Shah" := by
  constructor
  · intro body name
    rw [specRemove_eq_removeAI]
    rfl
  · decide

/-! ## sendEmail (googleGmail service) -/

/-- The message content handed to the Gmail send call (the RFC 2822 line
joining and base64url wire encoding are the transport format and are outside
this embedding). -/
structure EmailMessage where
  recipient : String
  subject : String
  body : String
deriving Repr, DecidableEq

/-- Model of `userProfile.email.split("@")[0]`: the part before the first
`@` (the whole string when there is none). -/
def localPart (email : String) : String :=
  (email.toList.takeWhile (fun c => c != '@')).asString

/-- Step 3 of `sendEmail`: the profile name when present and not blank,
otherwise the local part of the profile email address. -/
def resolveSenderName (profileName : Option String) (profileEmail : String) : String :=
  match profileName with
  | none => localPart profileEmail
  | some n => if jsTrim n = "" then localPart profileEmail else n

/-- Embedding of `sendEmail`: the four validation checks run first (lines
54-68 of the source, before the authenticated client is obtained, so a
failure happens before any external call); then the signature is enforced on
the body and the message is built for the send call. -/
def sendEmail (data : GeminiResponse) (profileName : Option String)
    (profileEmail : String) : Except String EmailMessage :=
  if data.action ≠ some "email" then Except.error "Invalid action type for Gmail service"
  else if strFalsy data.recipient then Except.error "Email recipient is required"
  else if strFalsy data.subject then Except.error "Email subject is required"
  else if strFalsy data.body then Except.error "Email body is required"
  else Except.ok ⟨data.recipient.getD "", data.subject.getD "",
    appendSignature (removeAISignature (data.body.getD ""))
      (resolveSenderName profileName profileEmail)⟩

/-- C8: `sendEmail` fails with a validation error (before any external call
in the source ordering) exactly when the action is not `email` or the
recipient, subject or body is missing or empty; otherwise it proceeds to the
send step with the signature-enforced body. -/
theorem sendEmail_validation (data : GeminiResponse) (pn : Option String) (pe : String) :
    ((sendEmail data pn pe).isOk = false ↔
      (data.action ≠ some "email" ∨ strFalsy data.recipient = true ∨
        strFalsy data.subject = true ∨ strFalsy data.body = true)) ∧
    (∀ r sub b : String, data.action = some "email" → data.recipient = some r →
      data.subject = some sub → data.body = some b →
      strFalsy data.recipient = false → strFalsy data.subject = false →
      strFalsy data.body = false →
      sendEmail data pn pe = Except.ok
        ⟨r, sub, appendSignature (removeAISignature b) (resolveSenderName pn pe)⟩) := by
  constructor
  · unfold sendEmail
    by_cases ha : data.action ≠ some "email"
    · rw [if_pos ha]
      simp [ha, Except.isOk, Except.toBool]
    · rw [if_neg ha]
      by_cases hr : strFalsy data.recipient = true
      · rw [if_pos hr]
        simp [hr, Except.isOk, Except.toBool]
      · rw [if_neg hr]
        by_cases hs : strFalsy data.subject = true
        · rw [if_pos hs]
          simp [hs, Except.isOk, Except.toBool]
        · rw [if_neg hs]
          by_cases hb : strFalsy data.body = true
          · rw [if_pos hb]
            simp [hb, Except.isOk, Except.toBool]
          · rw [if_neg hb]
            simp [Except.isOk, Except.toBool, ha, hr, hs, hb]
  · intro r sub b ha hr hs hb hfr hfs hfb
    unfold sendEmail
    rw [if_neg (by simp [ha]), if_neg (by simp [hfr]), if_neg (by simp [hfs]),
      if_neg (by simp [hfb]), hr, hs, hb]
    rfl

/-- Witness for C8: a record missing its recipient is rejected, and a
complete record is sent with the enforced signature body. -/
theorem sendEmail_validation_witness :
    (sendEmail ⟨some "email", none, none, none, none, none, none, none,
        some "Budget", some "Draft body", none, none⟩
        (some "Priya Shah") "priya@example.com").isOk = false ∧
    sendEmail ⟨some "email", none, none, none, none, none, none,
        some "raj@example.com", some "Budget", some "Draft body", none, none⟩
        (some "Priya Shah") "priya@example.com" = Except.ok
      ⟨"raj@example.com", "Budget",
        appendSignature (removeAISignature "Draft body")
          (resolveSenderName (some "Priya Shah") "priya@example.com")⟩ := by
  constructor
  · exact (sendEmail_validation _ _ _).1.mpr (Or.inr (Or.inl (by decide)))
  · exact (sendEmail_validation _ _ _).2 "raj@example.com" "Budget" "Draft body"
      rfl rfl rfl rfl (by decide) (by decide) (by decide)

/-! ## Response recovery and fallback (gemini service) -/

/-- Predicate `listStartsWith l pat`: `pat` is a literal prefix of `l`. -/
def listStartsWith : List Char → List Char → Bool
  | _, [] => true
  | [], _ :: _ => false
  | c :: cs, p :: ps => c == p && listStartsWith cs ps

/-- JS `String.prototype.includes` on character lists. -/
def containsSub : List Char → List Char → Bool
  | [], pat => pat.isEmpty
  | c :: cs, pat => listStartsWith (c :: cs) pat || containsSub cs pat

/-- JS `String.prototype.includes`. -/
def strIncludes (s sub : String) : Bool := containsSub s.toList sub.toList

/-- JS `String.prototype.substring(0, n)`. -/
def strTake (s : String) (n : Nat) : String := (s.toList.take n).asString

/-- Fuel-indexed body of `removeSub`; every step consumes at least one
character, so `l.length` fuel always suffices. -/
def removeSubFuel (pat : List Char) : Nat → List Char → List Char
  | 0, l => l
  | _ + 1, [] => []
  | f + 1, c :: cs =>
    if pat ≠ [] ∧ listStartsWith (c :: cs) pat = true then
      removeSubFuel pat f (List.drop (pat.length - 1) cs)
    else c :: removeSubFuel pat f cs

/-- Global replacement of a pattern by the empty string, the effect of
`replace(/pat/g, "")`: leftmost matches, non-overlapping, scanning resumes
after each removed match. -/
def removeSub (pat l : List Char) : List Char := removeSubFuel pat l.length l

/-- The fence cleanup: `replace(/```json/g, "").replace(/```/g, "")`. -/
def removeFences (s : String) : String :=
  (removeSub "```".toList (removeSub "```json".toList s.toList)).asString

/-- Index of the first occurrence of a character. -/
def firstIdxOf : List Char → Char → Option Nat
  | [], _ => none
  | x :: xs, c => if x == c then some 0 else (firstIdxOf xs c).map Nat.succ

/-- Index of the last occurrence of a character. -/
def lastIdxOf (l : List Char) (c : Char) : Option Nat :=
  (firstIdxOf l.reverse c).map (fun i => l.length - 1 - i)

/-- The greedy match of `/\x7b[\s\S]*\x7d/`: the substring from the first
opening brace to the last closing brace, when that span is non-empty;
otherwise the text is left unchanged. -/
def braceExtract (s : String) : String :=
  match firstIdxOf s.toList (Char.ofNat 123), lastIdxOf s.toList (Char.ofNat 125) with
  | some i, some j => if i < j then ((s.toList.drop i).take (j - i + 1)).asString else s
  | _, _ => s

/-- The response cleanup of `analyzeText`: strip code fences, trim, then
keep the first-brace-to-last-brace span. -/
def cleanResponse (responseText : String) : String :=
  braceExtract (jsTrim (removeFences responseText))

/-- JSON values as produced by `JSON.parse`.  A number records its sign,
integer digits, fraction digits and exponent. -/
inductive Json where
  | jnull : Json
  | jbool : Bool → Json
  | jnum : Bool → List Char → List Char → Option Int → Json
  | jstr : String → Json
  | jarr : List Json → Json
  | jobj : List (String × Json) → Json

/-- JSON whitespace. -/
def skipWs (l : List Char) : List Char :=
  l.dropWhile (fun c => c == ' ' || c == '\n' || c == '\t' || c == '\r')

/-- Hexadecimal digit value. -/
def hexVal (c : Char) : Option Nat :=
  if c.isDigit then some (c.toNat - 48)
  else if 'a' ≤ c ∧ c ≤ 'f' then some (c.toNat - 87)
  else if 'A' ≤ c ∧ c ≤ 'F' then some (c.toNat - 55)
  else none

/-- Scan a JSON string body (after the opening quote), handling escapes;
raw control characters are rejected as in `JSON.parse`. -/
def scanJsonStr : List Char → List Char → Option (String × List Char)
  | [], _ => none
  | '"' :: rest, acc => some (acc.reverse.asString, rest)
  | '\\' :: rest, acc =>
    match rest with
    | [] => none
    | e :: rest2 =>
      if e == '"' then scanJsonStr rest2 ('"' :: acc)
      else if e == '\\' then scanJsonStr rest2 ('\\' :: acc)
      else if e == '/' then scanJsonStr rest2 ('/' :: acc)
      else if e == 'b' then scanJsonStr rest2 (Char.ofNat 8 :: acc)
      else if e == 'f' then scanJsonStr rest2 (Char.ofNat 12 :: acc)
      else if e == 'n' then scanJsonStr rest2 ('\n' :: acc)
      else if e == 'r' then scanJsonStr rest2 ('\r' :: acc)
      else if e == 't' then scanJsonStr rest2 ('\t' :: acc)
      else if e == 'u' then
        match rest2 with
        | h1 :: h2 :: h3 :: h4 :: rest3 =>
          match hexVal h1, hexVal h2, hexVal h3, hexVal h4 with
          | some a, some b, some c, some d =>
            scanJsonStr rest3 (Char.ofNat (((a * 16 + b) * 16 + c) * 16 + d) :: acc)
          | _, _, _, _ => none
        | _ => none
      else none
  | c :: rest, acc =>
    if c.toNat < 32 then none else scanJsonStr rest (c :: acc)

/-- Parse the exponent digits of a JSON number. -/
def parseJsonExpTail (neg : Bool) (ip fp : List Char) (l : List Char) :
    Option (Json × List Char) :=
  let signAndRest : Bool × List Char := match l with
    | '+' :: rest => (false, rest)
    | '-' :: rest => (true, rest)
    | _ => (false, l)
  let ds := signAndRest.2.takeWhile Char.isDigit
  if ds = [] then none
  else
    let mag : Nat := ds.foldl (fun a c => a * 10 + digitVal c) 0
    let e : Int := if signAndRest.1 then -(mag : Int) else (mag : Int)
    some (Json.jnum neg ip fp (some e), signAndRest.2.drop ds.length)

/-- Parse an optional exponent. -/
def parseJsonExp (neg : Bool) (ip fp : List Char) (l : List Char) :
    Option (Json × List Char) :=
  match l with
  | 'e' :: rest => parseJsonExpTail neg ip fp rest
  | 'E' :: rest => parseJsonExpTail neg ip fp rest
  | _ => some (Json.jnum neg ip fp none, l)

/-- Parse a JSON number (sign, integer part without leading zeros, optional
fraction, optional exponent). -/
def parseJsonNum (l : List Char) : Option (Json × List Char) :=
  let negAndRest : Bool × List Char := match l with
    | '-' :: rest => (true, rest)
    | _ => (false, l)
  let neg := negAndRest.1
  let l1 := negAndRest.2
  let ip := l1.takeWhile Char.isDigit
  if ip = [] then none
  else if ip.length > 1 ∧ ip.head? = some '0' then none
  else
    let l2 := l1.drop ip.length
    match l2 with
    | '.' :: l3 =>
      let fp := l3.takeWhile Char.isDigit
      if fp = [] then none
      else parseJsonExp neg ip fp (l3.drop fp.length)
    | _ => parseJsonExp neg ip [] l2

mutual

/-- Fuel-indexed recursive-descent JSON value parse (model of `JSON.parse`);
the fuel only bounds nesting and is chosen large enough at the top entry. -/
def parseJsonValue : Nat → List Char → Option (Json × List Char)
  | 0, _ => none
  | f + 1, l =>
    let l1 := skipWs l
    match l1 with
    | [] => none
    | c :: cs =>
      if c == Char.ofNat 123 then
        let cs1 := skipWs cs
        if listStartsWith cs1 [Char.ofNat 125] then
          some (Json.jobj [], cs1.drop 1)
        else parseJsonMembers f cs1 []
      else if c == '[' then
        let cs1 := skipWs cs
        if listStartsWith cs1 [']'] then some (Json.jarr [], cs1.drop 1)
        else parseJsonElems f cs1 []
      else if c == '"' then
        (scanJsonStr cs []).map (fun p => (Json.jstr p.1, p.2))
      else if listStartsWith l1 "true".toList then some (Json.jbool true, l1.drop 4)
      else if listStartsWith l1 "false".toList then some (Json.jbool false, l1.drop 5)
      else if listStartsWith l1 "null".toList then some (Json.jnull, l1.drop 4)
      else parseJsonNum l1

/-- Parse the members of a JSON object after the opening brace. -/
def parseJsonMembers : Nat → List Char → List (String × Json) →
    Option (Json × List Char)
  | 0, _, _ => none
  | f + 1, l, acc =>
    match skipWs l with
    | '"' :: cs =>
      match scanJsonStr cs [] with
      | none => none
      | some (key, rest) =>
        match skipWs rest with
        | ':' :: rest2 =>
          match parseJsonValue f rest2 with
          | none => none
          | some (v, rest3) =>
            match skipWs rest3 with
            | ',' :: rest5 => parseJsonMembers f rest5 (acc ++ [(key, v)])
            | d :: rest5 =>
              if d == Char.ofNat 125 then some (Json.jobj (acc ++ [(key, v)]), rest5)
              else none
            | [] => none
        | _ => none
    | _ => none

/-- Parse the elements of a JSON array after the opening bracket. -/
def parseJsonElems : Nat → List Char → List Json → Option (Json × List Char)
  | 0, _, _ => none
  | f + 1, l, acc =>
    match parseJsonValue f l with
    | none => none
    | some (v, rest) =>
      match skipWs rest with
      | ',' :: rest2 => parseJsonElems f rest2 (acc ++ [v])
      | ']' :: rest2 => some (Json.jarr (acc ++ [v]), rest2)
      | _ => none

end

/-- Model of `JSON.parse`: parse one value and require only whitespace after
it; any failure is the thrown `SyntaxError`. -/
def parseJsonTop (s : String) : Except String Json :=
  match parseJsonValue (s.length + 1) s.toList with
  | none => Except.error ("JSON parse failed: " ++ s)
  | some (v, rest) =>
    if skipWs rest = [] then Except.ok v
    else Except.error ("JSON parse failed: " ++ s)

/-- Field access `obj.key` (JS semantics: on a non-object it is `undefined`
for the uses the pipeline makes; with duplicate keys `JSON.parse` keeps the
last value, hence the reverse scan). -/
def jsonLookup (j : Json) (key : String) : Option Json :=
  match j with
  | Json.jobj fields => (fields.reverse.find? (fun p => p.1 == key)).map (fun p => p.2)
  | _ => none

/-- JS truthiness of a JSON value. -/
def jsonTruthy : Json → Bool
  | Json.jnull => false
  | Json.jbool b => b
  | Json.jnum _ ip fp _ => ip.any (fun c => c != '0') || fp.any (fun c => c != '0')
  | Json.jstr s => s != ""
  | Json.jarr _ => true
  | Json.jobj _ => true

/-- JS truthiness of a possibly missing field. -/
def truthyOpt : Option Json → Bool
  | none => false
  | some j => jsonTruthy j

/-- Strict equality `field === "lit"` on a possibly missing field. -/
def jsonEqStrOpt : Option Json → String → Bool
  | some (Json.jstr t), s => t == s
  | _, _ => false

/-- Property assignment `obj.key = v` (`v = undefined` drops the field; the
observable interface is `jsonLookup`). -/
def jsonSetField (j : Json) (key : String) (v : Option Json) : Json :=
  match j with
  | Json.jobj fields =>
    Json.jobj ((fields.filter (fun p => p.1 != key)) ++
      (match v with | some x => [(key, x)] | none => []))
  | other => other

/-- The per-record date fix applied by `analyzeText`: `validateAndFixDate`
on `date` for calendar actions and on `dueDate` for task actions.  A truthy
non-string date field would reach `new Date(value)` with a non-string
argument in the source; the pipeline schema only ever carries strings there
and the embedding leaves such a record unchanged. -/
def fixOneAction (anchor : Date) (j : Json) : Json :=
  let j1 :=
    if jsonEqStrOpt (jsonLookup j "action") "calendar" && truthyOpt (jsonLookup j "date") then
      match jsonLookup j "date" with
      | some (Json.jstr s) =>
        jsonSetField j "date" ((validateAndFixDate anchor (some s)).map Json.jstr)
      | _ => j
    else j
  if jsonEqStrOpt (jsonLookup j1 "action") "task" && truthyOpt (jsonLookup j1 "dueDate") then
    match jsonLookup j1 "dueDate" with
    | some (Json.jstr s) =>
      jsonSetField j1 "dueDate" ((validateAndFixDate anchor (some s)).map Json.jstr)
    | _ => j1
  else j1

/-- The date-validation block of `analyzeText`: the top-level record and, when
a truthy `actions` array is present, each element of it (one level, as in the
source `parsed.actions.map`). -/
def fixDates (anchor : Date) (j : Json) : Json :=
  let j1 := fixOneAction anchor j
  match jsonLookup j1 "actions" with
  | some (Json.jarr xs) =>
    jsonSetField j1 "actions" (some (Json.jarr (xs.map (fixOneAction anchor))))
  | _ => j1

/-- The `try` body of `analyzeText` after the generation call: reject an
empty response, clean and decode the response text, fix dates, and require a
truthy `action` or `actions` field.  `genResult` is the text returned by the
external generation backend (`none` models an absent response). -/
def tryBody (anchor : Date) (genResult : Option String) : Except String Json :=
  match genResult with
  | none => Except.error "Empty response from Gemini"
  | some responseText =>
    if responseText = "" then Except.error "Empty response from Gemini"
    else
      match parseJsonTop (cleanResponse responseText) with
      | Except.error e => Except.error e
      | Except.ok parsed =>
        let parsed1 := fixDates anchor parsed
        if !truthyOpt (jsonLookup parsed1 "action") &&
            !truthyOpt (jsonLookup parsed1 "actions") then
          Except.error "Missing action in Gemini response"
        else Except.ok parsed1

/-- The fallback action kind: keyword sets tested in fixed priority order on
the lowercased input. -/
def fallbackAction (text : String) : String :=
  let lowerText := jsToLower text
  if strIncludes lowerText "meet" || strIncludes lowerText "schedule" then "calendar"
  else if strIncludes lowerText "task" || strIncludes lowerText "todo" then "task"
  else if strIncludes lowerText "email" || strIncludes lowerText "mail" then "email"
  else "unknown"

/-- The degraded record returned by the fallback path. -/
def fallbackResponse (text : String) : Json :=
  Json.jobj [("action", Json.jstr (fallbackAction text)),
    ("title", Json.jstr (strTake text 50)),
    ("description", Json.jstr "AI parsing failed. Please refine the input.")]

/-- Embedding of `analyzeText`: a missing API key throws before the model
call; any failure inside the `try` body is absorbed into the fallback
record. -/
def analyzeText (apiKeyOk : Bool) (anchor : Date) (genResult : Option String)
    (text : String) : Except String Json :=
  if !apiKeyOk then Except.error "GEMINI_API_KEY is not set in .env file."
  else match tryBody anchor genResult with
    | Except.ok parsed => Except.ok parsed
    | Except.error _ => Except.ok (fallbackResponse text)

/-- C6: whenever the try body fails (empty response, recovery failure, or
missing action) with the API key configured, `analyzeText` returns, without
raising, the fallback record: its kind comes from keyword sets tested in
fixed priority order (calendar, then task, then email, else unknown), its
title is the first 50 characters of the input, its description is the fixed
diagnostic string; text containing both "schedule" and "task" is calendar. -/
theorem fallbackClassifier_on_failure
    (anchor : Date) (genResult : Option String) (text : String) (e : String)
    (hfail : tryBody anchor genResult = Except.error e) :
    analyzeText true anchor genResult text = Except.ok (fallbackResponse text) ∧
    jsonLookup (fallbackResponse text) "action" = some (Json.jstr (fallbackAction text)) ∧
    jsonLookup (fallbackResponse text) "title" = some (Json.jstr (strTake text 50)) ∧
    jsonLookup (fallbackResponse text) "description" =
      some (Json.jstr "AI parsing failed. Please refine the input.") ∧
    ((strIncludes (jsToLower text) "meet" || strIncludes (jsToLower text) "schedule") = true →
      fallbackAction text = "calendar") ∧
    ((strIncludes (jsToLower text) "meet" || strIncludes (jsToLower text) "schedule") = false →
      (strIncludes (jsToLower text) "task" || strIncludes (jsToLower text) "todo") = true →
      fallbackAction text = "task") ∧
    ((strIncludes (jsToLower text) "meet" || strIncludes (jsToLower text) "schedule") = false →
      (strIncludes (jsToLower text) "task" || strIncludes (jsToLower text) "todo") = false →
      (strIncludes (jsToLower text) "email" || strIncludes (jsToLower text) "mail") = true →
      fallbackAction text = "email") ∧
    ((strIncludes (jsToLower text) "meet" || strIncludes (jsToLower text) "schedule") = false →
      (strIncludes (jsToLower text) "task" || strIncludes (jsToLower text) "todo") = false →
      (strIncludes (jsToLower text) "email" || strIncludes (jsToLower text) "mail") = false →
      fallbackAction text = "unknown") ∧
    fallbackAction "schedule a task reminder" = "calendar" := by
  refine ⟨?_, rfl, rfl, rfl, ?_, ?_, ?_, ?_, rfl⟩
  · unfold analyzeText
    rw [hfail]
    rfl
  · intro h1
    unfold fallbackAction
    rw [if_pos h1]
  · intro h1 h2
    unfold fallbackAction
    rw [if_neg (by simp [h1]), if_pos h2]
  · intro h1 h2 h3
    unfold fallbackAction
    rw [if_neg (by simp [h1]), if_neg (by simp [h2]), if_pos h3]
  · intro h1 h2 h3
    unfold fallbackAction
    rw [if_neg (by simp [h1]), if_neg (by simp [h2]), if_neg (by simp [h3])]

/-- Witness for C6: with no generation response and the priority-test input,
the fallback record is returned and classified as calendar. -/
theorem fallbackClassifier_on_failure_witness :
    analyzeText true ⟨2025, 6, 10⟩ none "schedule a task reminder" =
      Except.ok (fallbackResponse "schedule a task reminder") ∧
    fallbackAction "schedule a task reminder" = "calendar" := by
  have h := fallbackClassifier_on_failure ⟨2025, 6, 10⟩ none "schedule a task reminder"
    "Empty response from Gemini" rfl
  exact ⟨h.1, h.2.2.2.2.2.2.2.2⟩

/-- C7: the recoverer strips code fences, trims, then decodes exactly the
span from the first opening brace to the last closing brace (text without
such a span is left unchanged); fenced JSON and JSON behind leading prose
decode; pure non-JSON text fails with an error that never escapes the
caller. -/
theorem responseRecoverer_extraction :
    (∀ raw : String, cleanResponse raw = braceExtract (jsTrim (removeFences raw))) ∧
    (∀ (s : String) (i j : Nat), firstIdxOf s.toList (Char.ofNat 123) = some i →
      lastIdxOf s.toList (Char.ofNat 125) = some j → i < j →
      braceExtract s = ((s.toList.drop i).take (j - i + 1)).asString) ∧
    (∀ s : String, firstIdxOf s.toList (Char.ofNat 123) = none → braceExtract s = s) ∧
    parseJsonTop (cleanResponse "```json\n\x7b\"action\": \"task\", \"title\": \"Buy milk\"\x7d\n```") =
      Except.ok (Json.jobj [("action", Json.jstr "task"), ("title", Json.jstr "Buy milk")]) ∧
    parseJsonTop (cleanResponse "Sure, here is the JSON: \x7b\"action\": \"email\"\x7d") =
      Except.ok (Json.jobj [("action", Json.jstr "email")]) ∧
    (∃ e, tryBody ⟨2025, 6, 10⟩ (some "hello world, no json here") = Except.error e) ∧
    (∀ (anchor : Date) (genResult : Option String) (text : String),
      ∃ jr, analyzeText true anchor genResult text = Except.ok jr) := by
  refine ⟨fun _ => rfl, ?_, ?_, rfl, rfl, ⟨_, rfl⟩, ?_⟩
  · intro s i j h1 h2 h3
    unfold braceExtract
    rw [h1, h2]
    show (if i < j then ((s.toList.drop i).take (j - i + 1)).asString else s) = _
    rw [if_pos h3]
  · intro s h1
    unfold braceExtract
    rw [h1]
  · intro anchor genResult text
    unfold analyzeText
    cases htb : tryBody anchor genResult with
    | error e => exact ⟨fallbackResponse text, rfl⟩
    | ok parsed => exact ⟨parsed, rfl⟩

/-- Witness for C7 at a concrete brace span. -/
theorem responseRecoverer_extraction_witness :
    braceExtract "x\x7b1\x7d" = (("x\x7b1\x7d".toList.drop 1).take 3).asString :=
  responseRecoverer_extraction.2.1 "x\x7b1\x7d" 1 3 rfl rfl (by decide)
